import Mathlib

/-!
Verification of the binary frame protocol layer of the zcc ground-control
terminal: the byte codec (binUtil.py), the controller registry
(controller.py), the sensor readout pipeline and frame parser
(hw_commands.py, commands/sensor.py, objects/ZAVDevice.py), the
flash-extract validity filter, and the sensor command's wire traces.
Python functions are shallowly embedded as Lean functions; stateful loops
become explicit state passing or well-founded recursion; fallible code
returns Except.
-/

namespace Zcc

/-! ## Byte codec (src/binUtil.py, duplicated in src/hw_commands.py and
src/commands/sensor.py) -/

/-- Value of a 32-bit pattern under IEEE-754 binary32: a finite rational,
a signed infinity, or a NaN. -/
inductive F32 where
  | finite (q : ℚ)
  | inf (negative : Bool)
  | nan
deriving DecidableEq

/-- Mathematical value of a 32-bit pattern under IEEE-754 binary32
(sign bit 31, exponent bits 23..30, fraction bits 0..22). -/
def f32ValOfBits (bits : Nat) : F32 :=
  let sign : Nat := bits / 2 ^ 31 % 2
  let expo : Nat := bits / 2 ^ 23 % 2 ^ 8
  let frac : Nat := bits % 2 ^ 23
  if expo = 255 then
    if frac = 0 then .inf (sign = 1) else .nan
  else if expo = 0 then
    .finite ((-1 : ℚ) ^ sign * frac * (2 : ℚ) ^ (-(149 : ℤ)))
  else
    .finite ((-1 : ℚ) ^ sign * (2 ^ 23 + frac) * (2 : ℚ) ^ ((expo : ℤ) - 150))

/-- Little-endian value of a byte list: byte i is weighted by 2 ^ (8 * i). -/
def leVal : List Nat → Nat
  | [] => 0
  | b :: rest => b + 256 * leVal rest

/-- Embedding of Python struct.unpack("f", b): reinterprets exactly 4
little-endian bytes as an IEEE-754 binary32 value; any other length raises
struct.error, modelled as the error case. -/
def structUnpackF32 (bytes : List Nat) : Except Unit F32 :=
  if bytes.length = 4 then .ok (f32ValOfBits (leVal bytes)) else .error ()

/-- Embedding of binUtil.byte_array_to_float: the all-0xFF sentinel is
replaced by all-zero bytes, then the bytes are reinterpreted as binary32. -/
def byte_array_to_float (byte_array : List Nat) : Except Unit F32 :=
  let subst := if byte_array = [0xFF, 0xFF, 0xFF, 0xFF]
    then [0x00, 0x00, 0x00, 0x00] else byte_array
  structUnpackF32 subst

/-- Loop of binUtil.byte_array_to_int with its state (index i, accumulator
result) passed explicitly: each byte is shifted left by 8 * i and added. -/
def byte_array_to_int_go (i result : Nat) : List Nat → Nat
  | [] => result
  | byte :: rest => byte_array_to_int_go (i + 1) (result + (byte <<< (8 * i))) rest

/-- Embedding of binUtil.byte_array_to_int: little-endian accumulation over
the byte array, starting from index 0 and accumulator 0. -/
def byte_array_to_int (byte_array : List Nat) : Nat :=
  byte_array_to_int_go 0 0 byte_array

/-- Little-endian encoder of the round-trip claim: split a value into n
bytes, least significant first. -/
def natToLEBytes : Nat → Nat → List Nat
  | 0, _ => []
  | n + 1, v => v % 256 :: natToLEBytes n (v / 256)

theorem byte_array_to_int_go_eq (l : List Nat) :
    ∀ i result, byte_array_to_int_go i result l = result + 2 ^ (8 * i) * leVal l := by
  induction l with
  | nil => intro i result; simp [byte_array_to_int_go, leVal]
  | cons b rest ih =>
    intro i result
    rw [byte_array_to_int_go, ih, leVal, Nat.shiftLeft_eq]
    have h2 : 2 ^ (8 * (i + 1)) = 2 ^ (8 * i) * 2 ^ 8 := by
      rw [Nat.mul_add, pow_add]
    rw [h2]; ring

theorem byte_array_to_int_eq_leVal (l : List Nat) : byte_array_to_int l = leVal l := by
  rw [byte_array_to_int, byte_array_to_int_go_eq]; simp

theorem leVal_natToLEBytes : ∀ n v, leVal (natToLEBytes n v) = v % 2 ^ (8 * n) := by
  intro n
  induction n with
  | zero => intro v; simp [natToLEBytes, leVal, Nat.mod_one]
  | succ n ih =>
    intro v
    rw [natToLEBytes, leVal, ih]
    have h2 : 2 ^ (8 * (n + 1)) = 256 * 2 ^ (8 * n) := by
      rw [Nat.mul_add, pow_add]; ring
    rw [h2, Nat.mod_mul]

/-- C6: byte_array_to_int round-trips little-endian encoding: for n in
{1,2,3,4} and any v < 2^(8n), splitting v into n little-endian bytes and
decoding returns v. -/
theorem byte_array_to_int_roundtrip (n v : Nat)
    (_hn : n = 1 ∨ n = 2 ∨ n = 3 ∨ n = 4) (hv : v < 2 ^ (8 * n)) :
    byte_array_to_int (natToLEBytes n v) = v := by
  rw [byte_array_to_int_eq_leVal, leVal_natToLEBytes, Nat.mod_eq_of_lt hv]

/-- Witness for C6 at n = 2, v = 300. -/
theorem byte_array_to_int_roundtrip_witness :
    byte_array_to_int (natToLEBytes 2 300) = 300 :=
  byte_array_to_int_roundtrip 2 300 (Or.inr (Or.inl rfl)) (by decide)

/-- C8 counterexample: on the empty byte sequence, byte_array_to_int does
not fail at all (the embedding is total, mirroring the Python loop, which
simply never executes); it returns 0. The claimed DecodeError does not
exist anywhere in the source. -/
theorem byte_array_to_int_empty_no_failure : byte_array_to_int [] = 0 := rfl

/-- C8 amended: byte_array_to_int returns 0 on every zero-length byte
sequence instead of failing. -/
theorem byte_array_to_int_empty_returns_zero (byte_array : List Nat)
    (h : byte_array.length = 0) : byte_array_to_int byte_array = 0 := by
  rw [List.length_eq_zero] at h
  subst h
  rfl

/-- Witness for the amended C8 at the empty list. -/
theorem byte_array_to_int_empty_returns_zero_witness :
    byte_array_to_int [] = 0 :=
  byte_array_to_int_empty_returns_zero [] rfl

/-- C2: for every 4-byte array other than the all-0xFF sentinel,
byte_array_to_float returns the IEEE-754 binary32 little-endian
reinterpretation of the bytes (NaN patterns included), and on exactly the
all-0xFF sentinel it returns 0.0. -/
theorem byte_array_to_float_spec (byte_array : List Nat)
    (hlen : byte_array.length = 4) (hne : byte_array ≠ [0xFF, 0xFF, 0xFF, 0xFF]) :
    byte_array_to_float byte_array = .ok (f32ValOfBits (leVal byte_array)) ∧
    byte_array_to_float [0xFF, 0xFF, 0xFF, 0xFF] = .ok (.finite 0) := by
  constructor
  · rw [byte_array_to_float]
    simp only [hne, if_false]
    rw [structUnpackF32, if_pos hlen]
  · rw [byte_array_to_float]
    norm_num [structUnpackF32, leVal, f32ValOfBits]

/-- Witness for C2 at the bytes [1, 2, 3, 4]. -/
theorem byte_array_to_float_spec_witness :
    byte_array_to_float [1, 2, 3, 4] = .ok (f32ValOfBits (leVal [1, 2, 3, 4])) ∧
    byte_array_to_float [0xFF, 0xFF, 0xFF, 0xFF] = .ok (.finite 0) :=
  byte_array_to_float_spec [1, 2, 3, 4] (by decide) (by decide)

/-! ## Controller registry (src/controller.py) -/

/-- The four controller profiles of the registry, in the order of
controller_names (controller.py lines 31-36). -/
inductive Controller where
  | base
  | fullFeature
  | legacy
  | legacyLite
deriving DecidableEq

/-- Raw readout format tag of a sensor (controller.py sensor_formats uses
the Python types int and float as markers). -/
inductive Fmt where
  | intF
  | fltF
deriving DecidableEq

/-- Embedding of controller.py sensor_sizes: per-controller insertion-ordered
dictionary of sensor key to readout size in bytes, as an association list. -/
def sensor_sizes : Controller → List (String × Nat)
  | .base => [("pres", 4), ("temp", 4), ("vbat", 4)]
  | .fullFeature =>
      [("accX", 2), ("accY", 2), ("accZ", 2), ("gyroX", 2), ("gyroY", 2),
       ("gyroZ", 2), ("magX", 2), ("magY", 2), ("magZ", 2), ("imut", 2),
       ("pres", 4), ("temp", 4), ("vbat", 4)]
  | .legacy =>
      [("accX", 2), ("accY", 2), ("accZ", 2), ("gyroX", 2), ("gyroY", 2),
       ("gyroZ", 2), ("magX", 2), ("magY", 2), ("magZ", 2), ("imut", 2),
       ("pres", 4), ("temp", 4)]
  | .legacyLite => [("pres", 4), ("temp", 4)]

/-- Embedding of controller.py sensor_formats: per-controller dictionary of
sensor key to raw readout format. -/
def sensor_formats : Controller → List (String × Fmt)
  | .base => [("pres", .fltF), ("temp", .fltF), ("vbat", .fltF)]
  | .fullFeature =>
      [("accX", .intF), ("accY", .intF), ("accZ", .intF), ("gyroX", .intF),
       ("gyroY", .intF), ("gyroZ", .intF), ("magX", .intF), ("magY", .intF),
       ("magZ", .intF), ("imut", .intF), ("pres", .fltF), ("temp", .fltF),
       ("vbat", .fltF)]
  | .legacy =>
      [("accX", .intF), ("accY", .intF), ("accZ", .intF), ("gyroX", .intF),
       ("gyroY", .intF), ("gyroZ", .intF), ("magX", .intF), ("magY", .intF),
       ("magZ", .intF), ("imut", .intF), ("pres", .fltF), ("temp", .fltF)]
  | .legacyLite => [("pres", .fltF), ("temp", .fltF)]

/-- Embedding of controller.py sensor_frame_sizes: size in bytes of one
flash frame per controller. -/
def sensor_frame_sizes : Controller → Nat
  | .base => 16
  | .fullFeature => 36
  | .legacy => 32
  | .legacyLite => 12

/-- Sensor keys of a controller profile, in dictionary insertion order. -/
def sensorKeys (c : Controller) : List String :=
  (sensor_sizes c).map Prod.fst

/-- Dictionary lookup of a sensor's readout size (defined for every key of
the profile; the source raises KeyError outside them). -/
def sensorSize (c : Controller) (sensor : String) : Nat :=
  (((sensor_sizes c).lookup sensor).getD 0)

/-- Dictionary lookup of a sensor's raw readout format (defined for every
key of the profile; the source raises KeyError outside them). -/
def sensorFormat (c : Controller) (sensor : String) : Fmt :=
  (((sensor_formats c).lookup sensor).getD .intF)

/-- C4: for every controller profile of the registry, the per-sensor sizes
sum to the declared frame size minus the 4-byte timestamp width. -/
theorem sensor_sizes_sum_eq_frame_size (c : Controller) :
    ((sensor_sizes c).map Prod.snd).sum + 4 = sensor_frame_sizes c := by
  cases c <;> rfl

/-! ## Sensor command wire traces (src/commands/sensor.py, with the stale
duplicate in src/hw_commands.py) -/

/-- Command opcode of commands/sensor.py line 61. -/
def OPCODE : Nat := 0x05

/-- Subcommand code for sensor dump (commands/sensor.py line 65). -/
def DUMP_CODE : Nat := 0x01

/-- Subcommand code for sensor poll (commands/sensor.py line 66). -/
def POLL_CODE : Nat := 0x02

/-- Poll sequencing control byte START (commands/sensor.py line 71). -/
def POLL_START : Nat := 0xF3

/-- Poll sequencing control byte REQUEST (commands/sensor.py line 72). -/
def POLL_REQUEST : Nat := 0x51

/-- Poll sequencing control byte WAIT (commands/sensor.py line 73). -/
def POLL_WAIT : Nat := 0x44

/-- Poll sequencing control byte RESUME (commands/sensor.py line 74). -/
def POLL_RESUME : Nat := 0xEF

/-- Poll sequencing control byte STOP (commands/sensor.py line 75). -/
def POLL_STOP : Nat := 0x74

/-- Poll loop bound of commands/sensor.py line 79. -/
def POLL_TIMEOUT : Nat := 100

/-- Control bytes sent by the receive loop of the sensor poll subcommand
(commands/sensor.py lines 448-470), with the loop counter explicit: while
timeout_ctr is at most POLL_TIMEOUT, each iteration sends REQUEST, reads a
frame, then sends WAIT and RESUME and increments the counter. -/
def pollLoopBytes (timeout_ctr : Nat) : List Nat :=
  if h : timeout_ctr ≤ POLL_TIMEOUT then
    POLL_REQUEST :: POLL_WAIT :: POLL_RESUME :: pollLoopBytes (timeout_ctr + 1)
  else []
termination_by POLL_TIMEOUT + 1 - timeout_ctr
decreasing_by omega

/-- Bytes sent over the wire by the sensor dump subcommand of
commands/sensor.py (lines 393-426): the opcode then the dump code; all
following traffic is reads. -/
def sensorDumpSentBytes : List Nat := [OPCODE, DUMP_CODE]

/-- Bytes sent over the wire by the sensor poll subcommand of
commands/sensor.py (lines 431-475): opcode, poll code, sensor count, the
selected sensors' poll codes, START, the receive loop's control bytes from
counter 0, then STOP. -/
def sensorPollSentBytes (num_sensors : Nat) (sensor_poll_codes : List Nat) : List Nat :=
  OPCODE :: POLL_CODE :: num_sensors ::
    (sensor_poll_codes ++ [POLL_START] ++ pollLoopBytes 0 ++ [POLL_STOP])

/-- Opcode the stale duplicate sensor command in src/hw_commands.py sends
(line 414); it equals the ignite opcode defined at line 1205 of the same
file. -/
def hwSensorOpcode : Nat := 0x03

/-- Bytes sent by the hw_commands.py sensor dump path (lines 523-529). -/
def hwSensorDumpSentBytes : List Nat := [hwSensorOpcode, DUMP_CODE]

/-- C3: the sensor command that main.py registers (commands/sensor.py)
begins every dump exchange with bytes 0x05 0x01 and every poll exchange
with bytes 0x05 0x02, as the spec's opcode table states; the stale
duplicate sensor command in hw_commands.py instead begins with opcode
0x03, the byte the same file assigns to ignite. -/
theorem sensor_opcode_bytes (num_sensors : Nat) (sensor_poll_codes : List Nat) :
    sensorDumpSentBytes.take 2 = [0x05, 0x01] ∧
    (sensorPollSentBytes num_sensors sensor_poll_codes).take 2 = [0x05, 0x02] ∧
    hwSensorDumpSentBytes.take 2 = [0x03, 0x01] :=
  ⟨rfl, rfl, rfl⟩

theorem pollLoopBytes_eq_replicate :
    ∀ k timeout_ctr, timeout_ctr + k = POLL_TIMEOUT + 1 →
      pollLoopBytes timeout_ctr =
        (List.replicate k [POLL_REQUEST, POLL_WAIT, POLL_RESUME]).flatten := by
  intro k
  induction k with
  | zero =>
    intro ctr hctr
    rw [pollLoopBytes, dif_neg (by omega)]
    simp
  | succ k ih =>
    intro ctr hctr
    rw [pollLoopBytes, dif_pos (by omega), ih (ctr + 1) (by omega)]
    simp [List.replicate_succ]

/-- Closed form of the poll trace: the REQUEST/WAIT/RESUME block repeats
exactly 101 times. -/
theorem sensorPollSentBytes_eq (num_sensors : Nat) (sensor_poll_codes : List Nat) :
    sensorPollSentBytes num_sensors sensor_poll_codes =
      OPCODE :: POLL_CODE :: num_sensors ::
        (sensor_poll_codes ++ [POLL_START] ++
          (List.replicate 101 [POLL_REQUEST, POLL_WAIT, POLL_RESUME]).flatten ++
          [POLL_STOP]) := by
  rw [sensorPollSentBytes, pollLoopBytes_eq_replicate 101 0 rfl]

theorem count_flatten_replicate (a : Nat) (l : List Nat) :
    ∀ k, ((List.replicate k l).flatten.count a) = k * l.count a := by
  intro k
  induction k with
  | zero => simp
  | succ k ih => simp [List.replicate_succ, ih, Nat.succ_mul, Nat.add_comm]

/-- C9 counterexample: in a concrete poll exchange (one sensor, poll code
0x00) the REQUEST byte is sent 101 times, not 100: the loop runs for
timeout_ctr = 0,...,100 inclusive. -/
theorem sensor_poll_request_count_101 :
    (sensorPollSentBytes 1 [0x00]).count POLL_REQUEST = 101 ∧
    (sensorPollSentBytes 1 [0x00]).count POLL_REQUEST ≠ 100 := by
  have h : (sensorPollSentBytes 1 [0x00]).count POLL_REQUEST = 101 := by
    rw [sensorPollSentBytes, pollLoopBytes_eq_replicate 101 0 rfl]
    rw [List.count_cons, List.count_cons, List.count_cons, List.count_append,
      List.count_append, List.count_append, count_flatten_replicate]
    decide
  exact ⟨h, by rw [h]; decide⟩

/-- C9 amended: after sending START the REQUEST/read/WAIT/RESUME exchange
is performed exactly 101 times (loop counter 0 through 100 inclusive), and
then the single STOP byte 0x74 is sent. -/
theorem sensor_poll_loop_structure (num_sensors : Nat) (sensor_poll_codes : List Nat) :
    sensorPollSentBytes num_sensors sensor_poll_codes =
      [0x05, 0x02, num_sensors] ++ sensor_poll_codes ++ [0xF3] ++
        (List.replicate 101 [0x51, 0x44, 0xEF]).flatten ++ [0x74] := by
  rw [sensorPollSentBytes, pollLoopBytes_eq_replicate 101 0 rfl]
  simp only [OPCODE, POLL_CODE, POLL_START, POLL_REQUEST, POLL_WAIT, POLL_RESUME,
    POLL_STOP, List.cons_append, List.nil_append, List.append_assoc]

/-! ## Sensor readout pipeline (get_raw_sensor_readouts in hw_commands.py
lines 137-161, duplicated in commands/sensor.py and objects/ZAVDevice.py) -/

/-- Decoded sensor value: a raw little-endian integer, a binary32 float,
or a converted rational (time in seconds, physical units). -/
inductive Val where
  | intV (n : Nat)
  | fltV (f : F32)
  | ratV (q : ℚ)
deriving DecidableEq

/-- Loop of get_raw_sensor_readouts with its state (remaining sensors,
running start index) explicit: each sensor consumes size bytes from the
buffer via the Python slice sensor_bytes[index : index + size], which
silently truncates at the end of the buffer, and dispatches on the
sensor's format; a float field whose truncated slice is not 4 bytes makes
struct.unpack raise, modelled as the error case. -/
def get_raw_sensor_readouts_go (c : Controller) (sensor_bytes : List Nat) :
    List String → Nat → Except Unit (List (String × Val))
  | [], _ => .ok []
  | sensor :: rest, index =>
    let size := sensorSize c sensor
    let readout_bytes := (sensor_bytes.drop index).take size
    (if sensorFormat c sensor = Fmt.fltF
        then Except.map Val.fltV (byte_array_to_float readout_bytes)
        else .ok (Val.intV (byte_array_to_int readout_bytes))).bind
      fun v =>
        Except.map (fun readouts => (sensor, v) :: readouts)
          (get_raw_sensor_readouts_go c sensor_bytes rest (index + size))

/-- Embedding of get_raw_sensor_readouts: walks the listed sensors in
order starting at index 0 and returns the insertion-ordered dictionary of
raw readouts. -/
def get_raw_sensor_readouts (c : Controller) (sensors : List String)
    (sensor_bytes : List Nat) : Except Unit (List (String × Val)) :=
  get_raw_sensor_readouts_go c sensor_bytes sensors 0

/-- Byte offset at which the slice of the i-th listed sensor starts. -/
def sliceOffset (c : Controller) (sensors : List String) (i : Nat) : Nat :=
  ((sensors.take i).map (sensorSize c)).sum

theorem except_map_eq_error {ε α β : Type} (g : α → β) (x : Except ε α) (e : ε) :
    Except.map g x = .error e ↔ x = .error e := by
  cases x <;> simp [Except.map]

theorem except_bind_eq_error {ε α β : Type} (x : Except ε α) (f : α → Except ε β) (e : ε) :
    x.bind f = .error e ↔ x = .error e ∨ ∃ v, x = .ok v ∧ f v = .error e := by
  cases x <;> simp [Except.bind]

theorem byte_array_to_float_eq_error (l : List Nat) :
    byte_array_to_float l = .error () ↔ l.length ≠ 4 := by
  rw [byte_array_to_float]
  by_cases h : l = [0xFF, 0xFF, 0xFF, 0xFF]
  · subst h
    simp [structUnpackF32]
  · simp only [h, if_false]
    rw [structUnpackF32]
    by_cases h4 : l.length = 4 <;> simp [h4]

theorem float_sensor_size_four (c : Controller) :
    ∀ s ∈ sensorKeys c, sensorFormat c s = Fmt.fltF → sensorSize c s = 4 := by
  cases c <;> decide

theorem sliceOffset_zero (c : Controller) (sensors : List String) :
    sliceOffset c sensors 0 = 0 := rfl

theorem sliceOffset_succ_cons (c : Controller) (s : String) (rest : List String) (j : Nat) :
    sliceOffset c (s :: rest) (j + 1) = sensorSize c s + sliceOffset c rest j := by
  simp [sliceOffset, List.take_succ_cons]

theorem get_raw_sensor_readouts_go_error_iff (c : Controller) (sensor_bytes : List Nat) :
    ∀ (sensors : List String) (index : Nat), (∀ s ∈ sensors, s ∈ sensorKeys c) →
      (get_raw_sensor_readouts_go c sensor_bytes sensors index = .error () ↔
        ∃ i s, sensors[i]? = some s ∧ sensorFormat c s = Fmt.fltF ∧
          sensor_bytes.length < index + sliceOffset c sensors i + 4) := by
  intro sensors
  induction sensors with
  | nil =>
    intro index hmem
    simp [get_raw_sensor_readouts_go]
  | cons s rest ih =>
    intro index hmem
    have hmem_head : s ∈ sensorKeys c := hmem s (List.mem_cons_self s rest)
    have hmem_rest : ∀ x ∈ rest, x ∈ sensorKeys c :=
      fun x hx => hmem x (List.mem_cons_of_mem s hx)
    have hsplit : ∀ P : Nat → Prop, (∃ i, P i) ↔ P 0 ∨ ∃ j, P (j + 1) := by
      intro P
      constructor
      · rintro ⟨i, hi⟩
        cases i with
        | zero => exact Or.inl hi
        | succ j => exact Or.inr ⟨j, hi⟩
      · rintro (h0 | ⟨j, hj⟩)
        · exact ⟨0, h0⟩
        · exact ⟨j + 1, hj⟩
    rw [get_raw_sensor_readouts_go, except_bind_eq_error]
    by_cases hf : sensorFormat c s = Fmt.fltF
    · have hsize : sensorSize c s = 4 := float_sensor_size_four c s hmem_head hf
      by_cases hshort : sensor_bytes.length < index + 4
      · have herr : byte_array_to_float ((sensor_bytes.drop index).take (sensorSize c s)) =
            .error () := by
          rw [byte_array_to_float_eq_error, hsize]
          simp only [List.length_take, List.length_drop]
          omega
        constructor
        · intro _
          exact ⟨0, s, by simp, hf, by rw [sliceOffset_zero]; omega⟩
        · intro _
          left
          simp only [hf, if_pos, if_true]
          rw [except_map_eq_error]
          exact herr
      · have hok : ¬ byte_array_to_float ((sensor_bytes.drop index).take (sensorSize c s)) =
            .error () := by
          rw [byte_array_to_float_eq_error, hsize]
          simp only [List.length_take, List.length_drop]
          omega
        obtain ⟨w, hw⟩ : ∃ w, byte_array_to_float
            ((sensor_bytes.drop index).take (sensorSize c s)) = .ok w := by
          cases hba : byte_array_to_float ((sensor_bytes.drop index).take (sensorSize c s)) with
          | error e => exact absurd (by rw [hba]) hok
          | ok w => exact ⟨w, rfl⟩
        simp only [hf, if_true]
        rw [hsplit fun i => ∃ t, (s :: rest)[i]? = some t ∧ sensorFormat c t = Fmt.fltF ∧
          sensor_bytes.length < index + sliceOffset c (s :: rest) i + 4]
        have hrest := ih (index + sensorSize c s) hmem_rest
        constructor
        · rintro (habs | ⟨v, hv, htl⟩)
          · rw [except_map_eq_error] at habs
            exact absurd habs hok
          · rw [except_map_eq_error] at htl
            rcases (hrest.mp htl) with ⟨j, t, hjt, hft, hlt⟩
            refine Or.inr ⟨j, t, ?_, hft, ?_⟩
            · simpa using hjt
            · rw [sliceOffset_succ_cons]
              omega
        · rintro (⟨t, hts, hft, hlt⟩ | ⟨j, t, hjt, hft, hlt⟩)
          · exfalso
            rw [sliceOffset_zero] at hlt
            simp only [List.getElem?_cons_zero, Option.some.injEq] at hts
            omega
          · right
            refine ⟨Val.fltV w, by rw [hw]; rfl, ?_⟩
            rw [except_map_eq_error]
            refine hrest.mpr ⟨j, t, by simpa using hjt, hft, ?_⟩
            rw [sliceOffset_succ_cons] at hlt
            omega
    · simp only [hf, if_false]
      rw [hsplit fun i => ∃ t, (s :: rest)[i]? = some t ∧ sensorFormat c t = Fmt.fltF ∧
        sensor_bytes.length < index + sliceOffset c (s :: rest) i + 4]
      have hrest := ih (index + sensorSize c s) hmem_rest
      constructor
      · rintro (habs | ⟨v, hv, htl⟩)
        · exact absurd habs (by simp)
        · rw [except_map_eq_error] at htl
          rcases (hrest.mp htl) with ⟨j, t, hjt, hft, hlt⟩
          refine Or.inr ⟨j, t, by simpa using hjt, hft, ?_⟩
          rw [sliceOffset_succ_cons]
          omega
      · rintro (⟨t, hts, hft, hlt⟩ | ⟨j, t, hjt, hft, hlt⟩)
        · exfalso
          simp only [List.getElem?_cons_zero, Option.some.injEq] at hts
          subst hts
          exact hf hft
        · right
          refine ⟨Val.intV (byte_array_to_int ((sensor_bytes.drop index).take (sensorSize c s))),
            rfl, ?_⟩
          rw [except_map_eq_error]
          refine hrest.mpr ⟨j, t, by simpa using hjt, hft, ?_⟩
          rw [sliceOffset_succ_cons] at hlt
          omega

/-- C7 counterexample: for the Full Feature profile and key list
["accX"], the empty buffer has fewer bytes (0) than the sum of the listed
sizes (2), yet get_raw_sensor_readouts does not fail: the Python slice
silently yields an empty list and byte_array_to_int decodes it to 0. -/
theorem get_raw_sensor_readouts_short_int_ok :
    get_raw_sensor_readouts Controller.fullFeature ["accX"] [] =
      .ok [("accX", Val.intV 0)] ∧
    (["accX"].map (sensorSize Controller.fullFeature)).sum = 2 := by
  constructor <;> rfl

/-- C7 amended: get_raw_sensor_readouts fails (with struct.error from the
float unpack) if and only if some listed float-format sensor's slice is
cut short by the end of the buffer, i.e. the buffer length is less than
that sensor's starting offset plus 4; integer-format fields decode
truncated (even empty) slices silently. -/
theorem get_raw_sensor_readouts_error_iff (c : Controller) (sensors : List String)
    (sensor_bytes : List Nat) (hmem : ∀ s ∈ sensors, s ∈ sensorKeys c) :
    (get_raw_sensor_readouts c sensors sensor_bytes = .error () ↔
      ∃ i s, sensors[i]? = some s ∧ sensorFormat c s = Fmt.fltF ∧
        sensor_bytes.length < sliceOffset c sensors i + 4) := by
  have h := get_raw_sensor_readouts_go_error_iff c sensor_bytes sensors 0 hmem
  rw [get_raw_sensor_readouts]
  simpa using h

/-- Witness for the amended C7: the Base profile's single listed float
sensor over a 2-byte buffer. -/
theorem get_raw_sensor_readouts_error_iff_witness :
    get_raw_sensor_readouts Controller.base ["pres"] [1, 2] = .error () ↔
      ∃ i s, (["pres"] : List String)[i]? = some s ∧
        sensorFormat Controller.base s = Fmt.fltF ∧
        ([1, 2] : List Nat).length < sliceOffset Controller.base ["pres"] i + 4 :=
  get_raw_sensor_readouts_error_iff Controller.base ["pres"] [1, 2] (by decide)

/-! ## Frame parser (get_sensor_frames in hw_commands.py lines 242-287,
duplicated in objects/ZAVDevice.py getSensorFrames) -/

/-- Output mode of get_sensor_frames. -/
inductive FrameMode where
  | converted
  | bytes
deriving DecidableEq

/-- Modelled from the spec: sensor_conv.time_millis_to_sec. The module
sensor_conv is imported by controller.py and hw_commands.py but is absent
from src/; spec section 4.4 says bytes 0..3 decode to a millisecond
counter, converted "to seconds by dividing by 1000". -/
def time_millis_to_sec (time : Nat) : ℚ := (time : ℚ) / 1000

/-- Conversion-function table: controller.py's sensor_conv_funcs entries
are functions of the absent sensor_conv module, so the pipeline is
embedded parametrically in them; none models a None entry (the raw value
passes through unchanged). -/
def ConvFuncs : Type := String → Option (Val → Val)

/-- Embedding of conv_raw_sensor_readouts (hw_commands.py lines 174-190):
applies the conversion function to each readout if one is registered, else
passes the raw value through, preserving dictionary order. -/
def conv_raw_sensor_readouts (conv_funcs : ConvFuncs)
    (raw_readouts : List (String × Val)) : List (String × Val) :=
  raw_readouts.map fun p =>
    match conv_funcs p.1 with
    | some f => (p.1, f p.2)
    | none => p

/-- Integer measurement accumulated by the inner loop of get_sensor_frames:
the field's bytes shifted left by 8 * byte_num and summed. Out-of-range
indexing, which Python would turn into IndexError, defaults to 0 here; the
frame-size invariant (C4) keeps every access of a full-size block in
range. -/
def intMeasurement (int_frame : List Nat) (index size : Nat) : Nat :=
  (List.range size).foldl
    (fun measurement byte_num =>
      measurement + ((int_frame.getD (index + byte_num) 0) <<< (8 * byte_num))) 0

/-- Bytes collected for a float-format field by the inner loop of
get_sensor_frames. -/
def floatFieldBytes (int_frame : List Nat) (index size : Nat) : List Nat :=
  (List.range size).map fun byte_num => int_frame.getD (index + byte_num) 0

/-- Per-sensor field loop of get_sensor_frames with its state (remaining
profile keys, running offset) explicit. -/
def frameFields (c : Controller) (int_frame : List Nat) :
    List String → Nat → Except Unit (List (String × Val))
  | [], _ => .ok []
  | sensor :: rest, index =>
    let size := sensorSize c sensor
    (if sensorFormat c sensor = Fmt.fltF
        then Except.map Val.fltV (byte_array_to_float (floatFieldBytes int_frame index size))
        else .ok (Val.intV (intMeasurement int_frame index size))).bind
      fun v =>
        Except.map (fun fields => (sensor, v) :: fields)
          (frameFields c int_frame rest (index + size))

/-- One converted frame of get_sensor_frames: the 4-byte little-endian
millisecond timestamp converted to seconds, then the converted sensor
values in profile key order decoded from offset 4 on. -/
def sensorFrameOf (c : Controller) (conv_funcs : ConvFuncs) (int_frame : List Nat) :
    Except Unit (List Val) :=
  let time := int_frame.getD 0 0 + ((int_frame.getD 1 0) <<< 8) +
    ((int_frame.getD 2 0) <<< 16) + ((int_frame.getD 3 0) <<< 24)
  Except.map
    (fun fields =>
      Val.ratV (time_millis_to_sec time) ::
        (conv_raw_sensor_readouts conv_funcs fields).map Prod.snd)
    (frameFields c int_frame (sensorKeys c) 4)

/-- Embedding of get_sensor_frames: converted mode decodes each byte block
into one frame; bytes mode returns the per-block byte values unconverted. -/
def get_sensor_frames (c : Controller) (conv_funcs : ConvFuncs)
    (sensor_frames_bytes : List (List Nat)) (format : FrameMode) :
    Except Unit (List (List Val)) :=
  match format with
  | .converted => sensor_frames_bytes.mapM (sensorFrameOf c conv_funcs)
  | .bytes => .ok (sensor_frames_bytes.map (fun frame => frame.map Val.intV))

theorem byte_array_to_float_ok_of_length (l : List Nat) (h : l.length = 4) :
    ∃ w, byte_array_to_float l = .ok w := by
  cases hba : byte_array_to_float l with
  | error e =>
    rw [byte_array_to_float_eq_error] at hba
    exact absurd h hba
  | ok w => exact ⟨w, rfl⟩

theorem frameFields_ok (c : Controller) (int_frame : List Nat) :
    ∀ (keys : List String) (index : Nat), (∀ s ∈ keys, s ∈ sensorKeys c) →
      ∃ fields, frameFields c int_frame keys index = .ok fields ∧
        fields.length = keys.length := by
  intro keys
  induction keys with
  | nil =>
    intro index _
    exact ⟨[], rfl, rfl⟩
  | cons s rest ih =>
    intro index hmem
    obtain ⟨fields, hfields, hlen⟩ :=
      ih (index + sensorSize c s) fun x hx => hmem x (List.mem_cons_of_mem s hx)
    by_cases hf : sensorFormat c s = Fmt.fltF
    · have hsize : sensorSize c s = 4 :=
        float_sensor_size_four c s (hmem s (List.mem_cons_self s rest)) hf
      obtain ⟨w, hw⟩ := byte_array_to_float_ok_of_length
        (floatFieldBytes int_frame index (sensorSize c s)) (by simp [floatFieldBytes, hsize])
      refine ⟨(s, Val.fltV w) :: fields, ?_, by simp [hlen]⟩
      rw [frameFields]
      simp only [hf, if_true, hw]
      rw [hfields]
      rfl
    · refine ⟨(s, Val.intV (intMeasurement int_frame index (sensorSize c s))) :: fields,
        ?_, by simp [hlen]⟩
      rw [frameFields]
      simp only [hf, if_false]
      rw [hfields]
      rfl

theorem frame_time_eq_leVal_take (l : List Nat) (h : 4 ≤ l.length) :
    l.getD 0 0 + ((l.getD 1 0) <<< 8) + ((l.getD 2 0) <<< 16) + ((l.getD 3 0) <<< 24) =
      leVal (l.take 4) := by
  rcases l with _ | ⟨a, _ | ⟨b, _ | ⟨c, _ | ⟨d, rest⟩⟩⟩⟩ <;> simp at h
  simp [leVal, List.getD, Nat.shiftLeft_eq]
  ring

theorem sensorFrameOf_ok (c : Controller) (conv_funcs : ConvFuncs) (int_frame : List Nat)
    (h4 : 4 ≤ int_frame.length) :
    ∃ frame, sensorFrameOf c conv_funcs int_frame = .ok frame ∧
      frame.length = 1 + (sensorKeys c).length ∧
      frame.head? = some (Val.ratV (time_millis_to_sec (leVal (int_frame.take 4)))) := by
  obtain ⟨fields, hfields, hlen⟩ :=
    frameFields_ok c int_frame (sensorKeys c) 4 (fun s hs => hs)
  refine ⟨Val.ratV (time_millis_to_sec (leVal (int_frame.take 4))) ::
      (conv_raw_sensor_readouts conv_funcs fields).map Prod.snd, ?_, ?_, rfl⟩
  · rw [sensorFrameOf]
    simp only [hfields, frame_time_eq_leVal_take int_frame h4]
    rfl
  · simp [conv_raw_sensor_readouts, hlen, Nat.add_comm]

theorem frame_size_ge_four (c : Controller) : 4 ≤ sensor_frame_sizes c := by
  cases c <;> decide

/-- C5: for every controller profile of the registry and every list of
byte blocks each exactly the profile's frame size long, get_sensor_frames
in converted mode succeeds with exactly one frame per block, in block
order, each frame holding 1 + (number of profile sensor keys) fields whose
first field is the little-endian decode of bytes 0..3 of its block
converted from milliseconds to seconds. -/
theorem get_sensor_frames_shape (c : Controller) (conv_funcs : ConvFuncs)
    (blocks : List (List Nat))
    (hlen : ∀ b ∈ blocks, b.length = sensor_frame_sizes c) :
    ∃ frames, get_sensor_frames c conv_funcs blocks .converted = .ok frames ∧
      frames.length = blocks.length ∧
      ∀ i, i < blocks.length →
        ∃ frame block, frames[i]? = some frame ∧ blocks[i]? = some block ∧
          frame.length = 1 + (sensorKeys c).length ∧
          frame.head? = some (Val.ratV (time_millis_to_sec (leVal (block.take 4)))) := by
  rw [get_sensor_frames]
  induction blocks with
  | nil => exact ⟨[], rfl, rfl, fun i hi => absurd hi (by simp)⟩
  | cons b bs ih =>
    obtain ⟨frames, hframes, hflen, hprops⟩ :=
      ih fun x hx => hlen x (List.mem_cons_of_mem b hx)
    have hb4 : 4 ≤ b.length := by
      rw [hlen b (List.mem_cons_self b bs)]
      exact frame_size_ge_four c
    obtain ⟨frame, hframe, hframe_len, hframe_head⟩ := sensorFrameOf_ok c conv_funcs b hb4
    refine ⟨frame :: frames, ?_, by simp [hflen], ?_⟩
    · rw [List.mapM_cons, hframe, hframes]
      rfl
    · intro i hi
      cases i with
      | zero => exact ⟨frame, b, by simp, by simp, hframe_len, hframe_head⟩
      | succ j =>
        obtain ⟨fr, bl, hfr, hbl, hl, hh⟩ := hprops j (by simpa using hi)
        exact ⟨fr, bl, by simpa using hfr, by simpa using hbl, hl, hh⟩

/-- Witness for C5: the Legacy Lite profile, one all-zero 12-byte block,
and the empty conversion table. -/
theorem get_sensor_frames_shape_witness :
    ∃ frames, get_sensor_frames Controller.legacyLite (fun _ => none)
        [List.replicate 12 0] .converted = .ok frames ∧
      frames.length = ([List.replicate 12 0] : List (List Nat)).length ∧
      ∀ i, i < ([List.replicate 12 0] : List (List Nat)).length →
        ∃ frame block, frames[i]? = some frame ∧
          ([List.replicate 12 0] : List (List Nat))[i]? = some block ∧
          frame.length = 1 + (sensorKeys Controller.legacyLite).length ∧
          frame.head? = some (Val.ratV (time_millis_to_sec (leVal (block.take 4)))) :=
  get_sensor_frames_shape Controller.legacyLite (fun _ => none)
    [List.replicate 12 0] (by decide)

/-! ## Flash-extract validity filter (sensor_extract_data_filter,
hw_commands.py lines 329-366 and commands/sensor.py lines 254-291) -/

/-- Python slice data[0 : j] of a list with a possibly negative bound j,
as Python interprets it: a negative j counts from the end of the list,
clamped at 0. -/
def pySliceTo {α : Type} (data : List α) (j : Int) : List α :=
  if j < 0 then data.take ((data.length : Int) + j).toNat
  else data.take j.toNat

/-- Loop of sensor_extract_data_filter with its state (start_index,
end_index) explicit; the midpoint (end_index - start_index) / 2 +
start_index is the source's search_index, and the equality of the rows at
search_index and search_index + 1 is rows_equal (optional indexing
coincides with the source's direct indexing under the in-range invariant
proved for C10). The source's data[0 : k - 1] slices, whose upper bound
can reach -1 when the minuend is 0, are rendered by pySliceTo over the
integers. -/
def filterLoop {α : Type} [DecidableEq α] (data : List α)
    (start_index end_index : Nat) : Option (List α) :=
  if h1 : (end_index - start_index) / 2 + start_index = start_index then
    if data[(end_index - start_index) / 2 + start_index]? =
        data[(end_index - start_index) / 2 + start_index + 1]? then
      none
    else
      some (pySliceTo data
        ((((end_index - start_index) / 2 + start_index : Nat) : Int) - 1))
  else if h2 : (end_index - start_index) / 2 + start_index + 1 = end_index then
    if data[(end_index - start_index) / 2 + start_index]? =
        data[(end_index - start_index) / 2 + start_index + 1]? then
      some (pySliceTo data ((start_index : Int) - 1))
    else
      some (pySliceTo data ((end_index : Int) - 1))
  else
    if data[(end_index - start_index) / 2 + start_index]? =
        data[(end_index - start_index) / 2 + start_index + 1]? then
      filterLoop data start_index ((end_index - start_index) / 2 + start_index)
    else
      filterLoop data ((end_index - start_index) / 2 + start_index) end_index
termination_by end_index - start_index
decreasing_by
  · omega
  · omega

/-- Embedding of sensor_extract_data_filter: binary search between
start_index = 0 and end_index = len(data) - 1. -/
def sensor_extract_data_filter {α : Type} [DecidableEq α] (data : List α) :
    Option (List α) :=
  filterLoop data 0 (data.length - 1)

theorem pySliceTo_cast_sub_one {α : Type} (data : List α) (k : Nat) (hk : 1 ≤ k) :
    pySliceTo data ((k : Int) - 1) = data.take (k - 1) := by
  rw [pySliceTo, if_neg (by omega)]
  congr 1
  omega

theorem pySliceTo_zero_sub_one {α : Type} (data : List α) :
    pySliceTo data ((0 : Int) - 1) = data.take (data.length - 1) := by
  rw [pySliceTo, if_pos (by omega)]
  congr 1
  omega

theorem filterLoop_threshold {α : Type} [DecidableEq α] (data : List α) (n : Nat)
    (hn : 2 ≤ n)
    (hthr : ∀ i, i + 1 < data.length → ((data[i]? = data[i+1]?) ↔ n ≤ i)) :
    ∀ gap start_index end_index, end_index - start_index = gap →
      start_index < n → n ≤ end_index → end_index + 1 ≤ data.length →
      filterLoop data start_index end_index = some (data.take (n - 2)) ∨
      filterLoop data start_index end_index = some (data.take (n - 1)) := by
  intro gap
  induction gap using Nat.strong_induction_on with
  | _ gap ih =>
    intro s e hgap hs he hlen
    have hse : s < e := by omega
    have hmid_lt : (e - s) / 2 + s < e := by omega
    have hmid_len : (e - s) / 2 + s + 1 < data.length := by omega
    have hrows := hthr ((e - s) / 2 + s) hmid_len
    rw [filterLoop]
    by_cases hc1 : (e - s) / 2 + s = s
    · rw [dif_pos hc1]
      have hrows_false : ¬ (data[(e - s) / 2 + s]? = data[(e - s) / 2 + s + 1]?) := by
        rw [hrows]
        omega
      rw [if_neg hrows_false]
      have hsn : s = n - 1 := by omega
      left
      rw [hc1, hsn, pySliceTo_cast_sub_one data (n - 1) (by omega)]
      congr 2
    · rw [dif_neg hc1]
      by_cases hc2 : (e - s) / 2 + s + 1 = e
      · rw [dif_pos hc2]
        by_cases hreq : n ≤ (e - s) / 2 + s
        · rw [if_pos (hrows.mpr hreq)]
          have hsn : s = n - 1 := by omega
          left
          rw [hsn, pySliceTo_cast_sub_one data (n - 1) (by omega)]
          congr 2
        · rw [if_neg (by rw [hrows]; omega)]
          have hen : e = n := by omega
          right
          rw [hen, pySliceTo_cast_sub_one data n (by omega)]
      · rw [dif_neg hc2]
        by_cases hreq : n ≤ (e - s) / 2 + s
        · rw [if_pos (hrows.mpr hreq)]
          exact ih ((e - s) / 2 + s - s) (by omega) s ((e - s) / 2 + s) rfl hs hreq
            (by omega)
        · rw [if_neg (by rw [hrows]; omega)]
          exact ih (e - ((e - s) / 2 + s)) (by omega) ((e - s) / 2 + s) e rfl
            (by omega) he hlen

theorem filterLoop_uniform {α : Type} [DecidableEq α] (data : List α)
    (huni : ∀ i, i + 1 < data.length → data[i]? = data[i+1]?) :
    ∀ gap end_index, end_index = gap → 1 ≤ end_index →
      end_index + 1 ≤ data.length →
      filterLoop data 0 end_index = none ∨
      filterLoop data 0 end_index = some (data.take (data.length - 1)) := by
  intro gap
  induction gap using Nat.strong_induction_on with
  | _ gap ih =>
    intro e hgap he hlen
    have hmid_lt : (e - 0) / 2 + 0 < e := by omega
    have hmid_len : (e - 0) / 2 + 0 + 1 < data.length := by omega
    have hrows : data[(e - 0) / 2 + 0]? = data[(e - 0) / 2 + 0 + 1]? :=
      huni ((e - 0) / 2 + 0) hmid_len
    rw [filterLoop]
    by_cases hc1 : (e - 0) / 2 + 0 = 0
    · rw [dif_pos hc1, if_pos hrows]
      exact Or.inl rfl
    · rw [dif_neg hc1]
      by_cases hc2 : (e - 0) / 2 + 0 + 1 = e
      · rw [dif_pos hc2, if_pos hrows]
        right
        rw [show ((0 : Nat) : Int) - 1 = (0 : Int) - 1 by omega,
          pySliceTo_zero_sub_one]
      · rw [dif_neg hc2, if_pos hrows]
        exact ih ((e - 0) / 2 + 0) (by omega) ((e - 0) / 2 + 0) rfl (by omega)
          (by omega)

theorem append_replicate_threshold {α : Type} (A : List α) (v : α) (m : Nat)
    (hchain : A.Chain' (fun a b => a ≠ b)) (hlast : A.getLast? ≠ some v)
    (hA : 1 ≤ A.length) :
    ∀ i, i + 1 < (A ++ List.replicate m v).length →
      (((A ++ List.replicate m v)[i]? = (A ++ List.replicate m v)[i+1]?) ↔
        A.length ≤ i) := by
  intro i hi
  rw [List.length_append, List.length_replicate] at hi
  rcases Nat.lt_trichotomy (i + 1) A.length with h | h | h
  · have hiA : i < A.length := by omega
    rw [List.getElem?_append_left hiA, List.getElem?_append_left h,
      List.getElem?_eq_getElem hiA, List.getElem?_eq_getElem h]
    have hne : A.get ⟨i, by omega⟩ ≠ A.get ⟨i + 1, by omega⟩ :=
      List.chain'_iff_get.mp hchain i (by omega)
    simp only [List.get_eq_getElem] at hne
    constructor
    · intro heq
      rw [Option.some_inj] at heq
      exact absurd heq hne
    · intro hle
      exact absurd hle (by omega)
  · have hiA : i < A.length := by omega
    have hm1 : 0 < m := by omega
    rw [List.getElem?_append_left hiA, List.getElem?_eq_getElem hiA,
      List.getElem?_append_right (by omega),
      show i + 1 - A.length = 0 by omega, List.getElem?_replicate_of_lt hm1]
    have hAlast : A[i] ≠ v := by
      intro heq
      apply hlast
      rw [List.getLast?_eq_getElem?, show A.length - 1 = i by omega,
        List.getElem?_eq_getElem hiA, heq]
    constructor
    · intro heq
      rw [Option.some_inj] at heq
      exact absurd heq hAlast
    · intro hle
      exact absurd hle (by omega)
  · rw [List.getElem?_append_right (by omega),
      List.getElem?_append_right (by omega),
      List.getElem?_replicate_of_lt (by omega),
      List.getElem?_replicate_of_lt (by omega)]
    constructor
    · intro _
      omega
    · intro _
      rfl

/-- C1 amended: the claimed flash-filter behavior holds only up to the
source's additional off-by-one ambiguity. Given n >= 2 frames with no two
adjacent frames equal, followed by m >= 2 copies of a repeated frame that
differs from the last distinct frame, sensor_extract_data_filter returns
the prefix of length n - 2 or the prefix of length n - 1 of the input
(which exit of the binary search fires depends on the lengths); and given
a uniform input of length >= 2 it returns either the no-data signal none
or the input with its last frame dropped (again depending on length). -/
theorem sensor_extract_data_filter_behavior {α : Type} [DecidableEq α] :
    (∀ (A : List α) (v : α) (m : Nat),
      A.Chain' (fun a b => a ≠ b) → A.getLast? ≠ some v → 2 ≤ A.length → 2 ≤ m →
      sensor_extract_data_filter (A ++ List.replicate m v) =
          some (A.take (A.length - 2)) ∨
        sensor_extract_data_filter (A ++ List.replicate m v) =
          some (A.take (A.length - 1))) ∧
    (∀ (v : α) (L : Nat), 2 ≤ L →
      sensor_extract_data_filter (List.replicate L v) = none ∨
        sensor_extract_data_filter (List.replicate L v) =
          some (List.replicate (L - 1) v)) := by
  constructor
  · intro A v m hchain hlast hA hm
    have hthr := append_replicate_threshold A v m hchain hlast (by omega)
    have hlen : (A ++ List.replicate m v).length = A.length + m := by simp
    rw [sensor_extract_data_filter]
    have h := filterLoop_threshold (A ++ List.replicate m v) A.length hA hthr
      ((A ++ List.replicate m v).length - 1) 0 ((A ++ List.replicate m v).length - 1)
      rfl (by omega) (by omega) (by omega)
    rcases h with h | h
    · left
      rw [h, List.take_append_of_le_length (by omega)]
    · right
      rw [h, List.take_append_of_le_length (by omega)]
  · intro v L hL
    have huni : ∀ i, i + 1 < (List.replicate L v).length →
        (List.replicate L v)[i]? = (List.replicate L v)[i+1]? := by
      intro i hi
      rw [List.length_replicate] at hi
      rw [List.getElem?_replicate_of_lt (by omega),
        List.getElem?_replicate_of_lt (by omega)]
    rw [sensor_extract_data_filter]
    have h := filterLoop_uniform (List.replicate L v) huni
      ((List.replicate L v).length - 1) ((List.replicate L v).length - 1) rfl
      (by rw [List.length_replicate]; omega)
      (by rw [List.length_replicate]; omega)
    rcases h with h | h
    · exact Or.inl h
    · right
      rw [h, List.length_replicate, List.take_replicate,
        Nat.min_eq_left (by omega)]

/-- C1 counterexample: for the input [0, 1, 2, 2] (n = 2 distinct frames
followed by m = 2 copies) the claim demands the prefix of length n - 1 =
1, but the filter returns the empty list; and for the uniform 3-frame
input [0, 0, 0] the claim demands the no-data signal none, but the filter
returns [0, 0] (the source's data[0 : start_index - 1] slice with
start_index = 0 is data[0 : -1], everything but the last row). -/
theorem sensor_extract_data_filter_cex :
    (sensor_extract_data_filter ([0, 1, 2, 2] : List ℕ) = some [] ∧
      sensor_extract_data_filter ([0, 1, 2, 2] : List ℕ) ≠ some [0]) ∧
    sensor_extract_data_filter ([0, 0, 0] : List ℕ) = some [0, 0] := by
  refine ⟨⟨?_, ?_⟩, ?_⟩ <;>
    simp [sensor_extract_data_filter, filterLoop, pySliceTo]

/-- Witness for the amended C1: both parts at concrete inputs, the
structured part at [0, 1] ++ [9, 9] and the uniform part at [5, 5, 5]. -/
theorem sensor_extract_data_filter_behavior_witness :
    (sensor_extract_data_filter ([0, 1] ++ List.replicate 2 9) =
        some (([0, 1] : List ℕ).take (([0, 1] : List ℕ).length - 2)) ∨
      sensor_extract_data_filter ([0, 1] ++ List.replicate 2 9) =
        some (([0, 1] : List ℕ).take (([0, 1] : List ℕ).length - 1))) ∧
    (sensor_extract_data_filter (List.replicate 3 (5 : ℕ)) = none ∨
      sensor_extract_data_filter (List.replicate 3 (5 : ℕ)) =
        some (List.replicate (3 - 1) (5 : ℕ))) :=
  ⟨sensor_extract_data_filter_behavior.1 [0, 1] 9 2
      (by rw [List.chain'_cons]; exact ⟨by decide, List.chain'_singleton 1⟩)
      (by decide) (by decide) (by decide),
    sensor_extract_data_filter_behavior.2 5 3 (by decide)⟩

/-- Companion predicate to filterLoop recording, along the actual call
tree, that every row access of the loop is in range and that each
non-exiting iteration strictly shrinks the interval while keeping
start_index below end_index. -/
def filterLoopSafe {α : Type} [DecidableEq α] (data : List α)
    (start_index end_index : Nat) : Prop :=
  (end_index - start_index) / 2 + start_index + 1 < data.length ∧
  (if _h1 : (end_index - start_index) / 2 + start_index = start_index then True
   else if _h2 : (end_index - start_index) / 2 + start_index + 1 = end_index then True
   else if data[(end_index - start_index) / 2 + start_index]? =
       data[(end_index - start_index) / 2 + start_index + 1]? then
     (start_index < (end_index - start_index) / 2 + start_index ∧
       (end_index - start_index) / 2 + start_index - start_index <
         end_index - start_index) ∧
       filterLoopSafe data start_index ((end_index - start_index) / 2 + start_index)
   else
     ((end_index - start_index) / 2 + start_index < end_index ∧
       end_index - ((end_index - start_index) / 2 + start_index) <
         end_index - start_index) ∧
       filterLoopSafe data ((end_index - start_index) / 2 + start_index) end_index)
termination_by end_index - start_index
decreasing_by
  · omega
  · omega

theorem filterLoopSafe_holds {α : Type} [DecidableEq α] (data : List α) :
    ∀ gap start_index end_index, end_index - start_index = gap →
      start_index < end_index → end_index + 1 ≤ data.length →
      filterLoopSafe data start_index end_index := by
  intro gap
  induction gap using Nat.strong_induction_on with
  | _ gap ih =>
    intro s e hgap hse hlen
    have hmid_lt : (e - s) / 2 + s < e := by omega
    rw [filterLoopSafe]
    refine ⟨by omega, ?_⟩
    by_cases hc1 : (e - s) / 2 + s = s
    · rw [dif_pos hc1]
      trivial
    · rw [dif_neg hc1]
      by_cases hc2 : (e - s) / 2 + s + 1 = e
      · rw [dif_pos hc2]
        trivial
      · rw [dif_neg hc2]
        by_cases hrows : data[(e - s) / 2 + s]? = data[(e - s) / 2 + s + 1]?
        · rw [if_pos hrows]
          exact ⟨⟨by omega, by omega⟩,
            ih ((e - s) / 2 + s - s) (by omega) s _ rfl (by omega) (by omega)⟩
        · rw [if_neg hrows]
          exact ⟨⟨by omega, by omega⟩,
            ih (e - ((e - s) / 2 + s)) (by omega) _ e rfl (by omega) hlen⟩

theorem pySliceTo_is_take {α : Type} (data : List α) (j : Int) :
    ∃ k, pySliceTo data j = data.take k := by
  rw [pySliceTo]
  by_cases h : j < 0
  · exact ⟨_, if_pos h⟩
  · exact ⟨_, if_neg h⟩

theorem filterLoop_none_or_take {α : Type} [DecidableEq α] (data : List α) :
    ∀ gap start_index end_index, end_index - start_index = gap →
      filterLoop data start_index end_index = none ∨
      ∃ k, filterLoop data start_index end_index = some (data.take k) := by
  intro gap
  induction gap using Nat.strong_induction_on with
  | _ gap ih =>
    intro s e hgap
    rw [filterLoop]
    by_cases hc1 : (e - s) / 2 + s = s
    · rw [dif_pos hc1]
      by_cases hrows : data[(e - s) / 2 + s]? = data[(e - s) / 2 + s + 1]?
      · rw [if_pos hrows]
        exact Or.inl rfl
      · rw [if_neg hrows]
        obtain ⟨k, hk⟩ := pySliceTo_is_take data
          ((((e - s) / 2 + s : Nat) : Int) - 1)
        exact Or.inr ⟨k, by rw [hk]⟩
    · rw [dif_neg hc1]
      by_cases hc2 : (e - s) / 2 + s + 1 = e
      · rw [dif_pos hc2]
        by_cases hrows : data[(e - s) / 2 + s]? = data[(e - s) / 2 + s + 1]?
        · rw [if_pos hrows]
          obtain ⟨k, hk⟩ := pySliceTo_is_take data ((s : Int) - 1)
          exact Or.inr ⟨k, by rw [hk]⟩
        · rw [if_neg hrows]
          obtain ⟨k, hk⟩ := pySliceTo_is_take data ((e : Int) - 1)
          exact Or.inr ⟨k, by rw [hk]⟩
      · rw [dif_neg hc2]
        by_cases hrows : data[(e - s) / 2 + s]? = data[(e - s) / 2 + s + 1]?
        · rw [if_pos hrows]
          exact ih ((e - s) / 2 + s - s) (by omega) s _ rfl
        · rw [if_neg hrows]
          exact ih (e - ((e - s) / 2 + s)) (by omega) _ e rfl

/-- C10: on any input of length at least 2, the binary-search loop of
sensor_extract_data_filter only indexes in range and strictly shrinks the
start_index-end_index interval on every non-exiting iteration (the
filterLoopSafe predicate traces the actual call tree), and the function
returns either none or a prefix (an initial take) of the input. -/
theorem sensor_extract_data_filter_safe {α : Type} [DecidableEq α] (data : List α)
    (h2 : 2 ≤ data.length) :
    filterLoopSafe data 0 (data.length - 1) ∧
    (sensor_extract_data_filter data = none ∨
      ∃ k, sensor_extract_data_filter data = some (data.take k)) := by
  constructor
  · exact filterLoopSafe_holds data (data.length - 1) 0 (data.length - 1) rfl
      (by omega) (by omega)
  · rw [sensor_extract_data_filter]
    exact filterLoop_none_or_take data (data.length - 1) 0 (data.length - 1) rfl

/-- Witness for C10 at the input [0, 1, 2]. -/
theorem sensor_extract_data_filter_safe_witness :
    filterLoopSafe ([0, 1, 2] : List ℕ) 0 (([0, 1, 2] : List ℕ).length - 1) ∧
    (sensor_extract_data_filter ([0, 1, 2] : List ℕ) = none ∨
      ∃ k, sensor_extract_data_filter ([0, 1, 2] : List ℕ) =
        some (([0, 1, 2] : List ℕ).take k)) :=
  sensor_extract_data_filter_safe [0, 1, 2] (by decide)

end Zcc
